import Mathlib

/-!
Shallow embedding of the hongbai session-relay and mirroring layer.

Sources embedded here:
* `src/unnamed/part_003` / `src/aliyun-edge/signaling.js` — the edge signaling
  service: KV-backed room records, bounded per-(room,seat) message queues,
  join / leave handlers (`handleSignaling`), `pushMessage`, `popMessages`.
* `src/js/room.js` / `src/unnamed/part_005` — the client `RoomManager`:
  reconnection backoff (`handleWsDisconnect`), latency reporting
  (`getLatency`), answer handling (`handleAnswer`), host message forwarding
  (`handleGameMessage` + `broadcast`).
* `src/unnamed/part_007` / `part_008` — the `NESEmulator` frame codec
  (`compressFrame`, `decompressFrame`).
* `src/unnamed/part_009` — the `ChatManager` audio codec
  (`compressAudio`, `onVoiceData`).

JavaScript numbers that are used as array indices, seat numbers, pixel
values and millisecond delays are embedded as `Nat`; the audio samples
(floats in the unit range) are embedded as `ℚ`, with `Math.round`
embedded as `⌊x + 1/2⌋` (JS rounds half toward positive infinity).
A KV key that is absent is `Option.none`; JS `undefined` / `null`
results are `Option.none`.
-/

namespace Hongbai

/-- A signaling message; only the `type` tag is relevant to the claims,
the remaining JSON payload fields are carried by no claim. -/
structure Msg where
  type : String
deriving DecidableEq

/-- The queue-update step of `pushMessage` (identical in
`src/aliyun-edge/signaling.js` and `src/unnamed/part_000` / `part_003`):
`messages.push(message); if (messages.length > 50) messages.shift();`
`push` appends at the tail, `shift` removes the head. -/
def pushBounded {α : Type} (queue : List α) (m : α) : List α :=
  let msgs := queue ++ [m]
  if msgs.length > 50 then msgs.tail else msgs

/-- The signaling KV store, split by key shape: `room:CODE` keys hold the
room record (its `players` list — the other record fields are carried by
no claim), `msg:CODE:SEAT` keys hold the pending message queue. -/
structure Store where
  rooms : String → Option (List Nat)
  queues : String → Nat → Option (List Msg)

/-- `pushMessage(kv, roomCode, toPlayer, message)` from the signaling
service: read the existing queue (absent key starts empty), append,
evict the head past 50, write back. -/
def pushMessage (s : Store) (code : String) (toPlayer : Nat) (m : Msg) : Store :=
  let msgs := pushBounded ((s.queues code toPlayer).getD []) m
  let queues1 := fun c p =>
    if c = code ∧ p = toPlayer then some msgs else s.queues c p
  { s with queues := queues1 }

/-- `kv.delete` of a `msg:CODE:SEAT` key. -/
def deleteQueue (s : Store) (code : String) (p : Nat) : Store :=
  let queues1 := fun c q =>
    if c = code ∧ q = p then none else s.queues c q
  { s with queues := queues1 }

/-- `popMessages(kv, roomCode, playerNum)`: read the queue, return `[]`
when the key is absent, otherwise delete the key and return its contents
(destructive read). -/
def popMessages (s : Store) (code : String) (p : Nat) : List Msg × Store :=
  match s.queues code p with
  | none => ([], s)
  | some msgs => (msgs, deleteQueue s code p)

/-- The seat-assignment loop of the `join` handler:
`let playerNum = 2; while (room.players.includes(playerNum) && playerNum <= 4) playerNum++;`
The loop runs at most 3 iterations (the guard requires `playerNum ≤ 4`),
so fuel 4 is enough. -/
def seatScan (players : List Nat) : Nat → Nat → Nat
  | 0, p => p
  | fuel + 1, p =>
      if p ∈ players ∧ p ≤ 4 then seatScan players fuel (p + 1) else p

/-- Outcome of the `join` endpoint, as the handler's JSON responses:
`房间不存在` (404), `房间已满` (400), or success carrying the assigned
seat and the updated players list. -/
inductive JoinResult where
  | roomNotFound
  | roomFull
  | joined (seat : Nat) (players : List Nat)
deriving DecidableEq

/-- The `join` handler of `handleSignaling` (identical across
`signaling.js`, `part_000`, `part_003`): look up the room record, scan
for the lowest free seat starting at 2, reject past 4, otherwise append
the seat, write the record back and notify seat 1. -/
def joinRoom (s : Store) (code : String) : JoinResult × Store :=
  match s.rooms code with
  | none => (.roomNotFound, s)
  | some players =>
      let p := seatScan players 4 2
      if p > 4 then (.roomFull, s)
      else
        let players1 := players ++ [p]
        let rooms1 := fun c => if c = code then some players1 else s.rooms c
        let s1 : Store := { s with rooms := rooms1 }
        let s2 := pushMessage s1 code 1 ⟨"player-joined"⟩
        (.joined p players1, s2)

/-- The `leave` handler of `src/unnamed/part_003` (lines 715–770).
Host leave (`playerNum == 1`): delete the room record, then for every
other occupied seat push a `room-closed` message and immediately delete
that seat's message queue, finally delete the host's own queue.
Non-host leave: filter the seat out of `players`, rewrite the record,
push `player-left` to seat 1 and delete the leaver's queue.
A missing room is a no-op. -/
def leave (s : Store) (code : String) (playerNum : Nat) : Store :=
  match s.rooms code with
  | none => s
  | some players =>
      if playerNum = 1 then
        let rooms1 := fun c => if c = code then none else s.rooms c
        let s1 : Store := { s with rooms := rooms1 }
        let s2 := players.foldl (fun st p =>
          if p ≠ 1 then
            deleteQueue (pushMessage st code p ⟨"room-closed"⟩) code p
          else st) s1
        deleteQueue s2 code 1
      else
        let players1 := players.filter (fun p => p ≠ playerNum)
        let rooms1 := fun c => if c = code then some players1 else s.rooms c
        let s1 : Store := { s with rooms := rooms1 }
        let s2 := pushMessage s1 code 1 ⟨"player-left"⟩
        deleteQueue s2 code playerNum

/-! ### Client `RoomManager` (src/js/room.js, src/unnamed/part_005) -/

/-- `getLatency(playerNum) { return this.latencies[playerNum] || null; }`
(identical in `src/js/room.js` lines 301–303 and `src/unnamed/part_005`
lines 533–535). An absent map entry is `none`; the JS `|| null` yields
`null` for every falsy number, so a stored `0` also comes out as `none`. -/
def getLatency (latencies : Nat → Option Nat) (playerNum : Nat) : Option Nat :=
  match latencies playerNum with
  | none => none
  | some v => if v = 0 then none else some v

/-- The WebRTC signaling states that `handleAnswer` in
`src/unnamed/part_005` (lines 438–453) inspects: a peer connection that
has not sent an offer is `stable`, one with a local offer pending is
`haveLocalOffer`. -/
inductive SignalingState where
  | stable
  | haveLocalOffer
  | haveRemoteOffer
deriving DecidableEq

/-- The platform exception that
`RTCPeerConnection.setRemoteDescription` raises when an `answer`
arrives in a signaling state other than `have-local-offer`. -/
inductive NegotiationError where
  | invalidStateError
deriving DecidableEq

/-- `handleAnswer(fromPlayer, answer)` from `src/unnamed/part_005`
(lines 438–453): `if (!pc) return;` then
`if (pc.signalingState !== 'have-local-offer') { console.warn(...); return; }`
and only then `await pc.setRemoteDescription(...)` (which moves the
connection to `stable`; its try/catch never rethrows). The result is
`Except` so that "returns without raising" is visible as `.ok`. -/
def handleAnswer (pcs : Nat → Option SignalingState) (fromPlayer : Nat) :
    Except NegotiationError (Nat → Option SignalingState) :=
  match pcs fromPlayer with
  | none => .ok pcs
  | some st =>
      if st ≠ .haveLocalOffer then .ok pcs
      else
        let pcs1 := fun q => if q = fromPlayer then some .stable else pcs q
        .ok pcs1

/-- `handleAnswer(fromPlayer, answer)` from `src/js/room.js` (lines
350–355):
`const pc = this.peerConnections[fromPlayer]; if (pc) { await pc.setRemoteDescription(new RTCSessionDescription(answer)); }`
— no signaling-state guard and no try/catch around the call.  When a
connection exists, `setRemoteDescription` of an answer succeeds only in
`have-local-offer` (moving the connection to `stable`); in any other
state the platform call raises `InvalidStateError`, which this handler
does not catch. -/
def handleAnswerJs (pcs : Nat → Option SignalingState) (fromPlayer : Nat) :
    Except NegotiationError (Nat → Option SignalingState) :=
  match pcs fromPlayer with
  | none => .ok pcs
  | some st =>
      if st = .haveLocalOffer then
        let pcs1 := fun q => if q = fromPlayer then some .stable else pcs q
        .ok pcs1
      else
        .error .invalidStateError

/-- The reconnection-controller state of `RoomManager` in
`src/unnamed/part_005`: `roomCode` (null until a room is entered) and
`wsReconnectAttempts`. -/
structure WsConn where
  roomCode : Option String
  wsReconnectAttempts : Nat
deriving DecidableEq

/-- `maxReconnectAttempts = 5` from the `RoomManager` constructor. -/
def maxReconnectAttempts : Nat := 5

/-- `handleWsDisconnect` from `src/unnamed/part_005` (lines 119–148):
while still in a room and under the attempt cap, bump the counter and
schedule a reconnect after
`Math.min(1000 * Math.pow(2, attempts - 1), 10000)` ms; otherwise
schedule nothing (the code only emits a terminal error event).
Returns the updated state and the scheduled delay, `none` when no
further attempt is scheduled. -/
def handleWsDisconnect (s : WsConn) : WsConn × Option Nat :=
  if s.roomCode.isSome ∧ s.wsReconnectAttempts < maxReconnectAttempts then
    let attempts := s.wsReconnectAttempts + 1
    ({ s with wsReconnectAttempts := attempts },
      some (min (1000 * 2 ^ (attempts - 1)) 10000))
  else
    (s, none)

/-- The `ws.onopen` handler in `connectWebSocket`
(`src/unnamed/part_005` lines 89–94) resets
`this.wsReconnectAttempts = 0` on any successful (re)connect. -/
def wsOnOpen (s : WsConn) : WsConn :=
  { s with wsReconnectAttempts := 0 }

/-- The delays scheduled over `n` consecutive transport failures:
iterate `handleWsDisconnect`, collecting each scheduled delay. -/
def runDisconnects (s : WsConn) : Nat → List (Option Nat)
  | 0 => []
  | n + 1 =>
      let r := handleWsDisconnect s
      r.2 :: runDisconnects r.1 n

/-- A data-channel game message: its `type` tag and the `fromPlayer`
field; the remaining payload fields are carried by no claim. -/
structure GameMsg where
  type : String
  fromPlayer : Nat
deriving DecidableEq

/-- The data channel's `onmessage` handler (`src/js/room.js` line 247,
`src/unnamed/part_005` line 383) tags the parsed message with the
sending channel's seat: `data.fromPlayer = playerNum;`. -/
def tagFromPlayer (senderSeat : Nat) (m : GameMsg) : GameMsg :=
  { m with fromPlayer := senderSeat }

/-- `broadcast(data, excludePlayer)` (`src/js/room.js` lines 464–475):
iterate `dataChannels` (seat, readyState-is-open pairs) and send to
every channel whose seat differs from `excludePlayer` and is open.
The result is the list of seats the message is sent to, in iteration
order. -/
def broadcastTargets (dataChannels : List (Nat × Bool)) (excludePlayer : Nat) :
    List Nat :=
  (dataChannels.filter (fun pc => pc.1 ≠ excludePlayer ∧ pc.2)).map
    (fun pc => pc.1)

/-- The forwarding tail of `handleGameMessage` (`src/js/room.js` lines
419–422, `src/unnamed/part_005` lines 584–587):
`if (this.isHost && !['frame','ping','pong'].includes(data.type))
this.broadcast(data, data.fromPlayer);` — the list of seats the host
relays the message to. -/
def hostForwardTargets (isHost : Bool) (dataChannels : List (Nat × Bool))
    (m : GameMsg) : List Nat :=
  if isHost = true ∧ ¬ m.type ∈ ["frame", "ping", "pong"] then
    broadcastTargets dataChannels m.fromPlayer
  else []

/-! ### Frame codec (`NESEmulator`, src/unnamed/part_007 / part_008) -/

/-- The fixed raster: `256 * 240` pixels, hardcoded in
`decompressFrame`. -/
def rasterLen : Nat := 256 * 240

/-- The stride-2 sampling loop of `compressFrame`:
`for (let i = 0; i < frameBuffer.length; i += 2) sampled.push(frameBuffer[i]);`
— the loop visits `i = 2 * k` for `k < ⌈n / 2⌉`.  A frame buffer of
length `n` is embedded as its index function `fb`. -/
def sampleEveryOther (fb : Nat → Nat) (n : Nat) : List Nat :=
  (List.range ((n + 1) / 2)).map (fun k => fb (2 * k))

/-- The change-scan loop of `compressFrame`:
`for (let i = 0; i < frameBuffer.length; i++)
   if (frameBuffer[i] !== this.lastFrameBuffer[i]) changes.push(i, frameBuffer[i]);`
— a flat list with the index and the new value appended for every
changed pixel. -/
def diffChanges (last fb : Nat → Nat) (n : Nat) : List Nat :=
  (List.range n).foldl
    (fun acc i => if fb i ≠ last i then acc ++ [i, fb i] else acc) []

/-- The two payload kinds of the mirroring codec:
`{ type: 'full', data }` and `{ type: 'diff', data }`. -/
inductive FrameData where
  | full (data : List Nat)
  | diff (data : List Nat)
deriving DecidableEq

/-- `compressFrame(frameBuffer)` (identical in `src/unnamed/part_007`
lines 104–137 and `part_008` lines 85–118).  `last` is
`this.lastFrameBuffer` (`none` before the first frame).  First frame:
emit a stride-2 full frame.  Otherwise collect the flat change list and
emit a full frame when `changes.length > frameBuffer.length / 2`
(a JS float comparison, embedded exactly over `ℚ`), else a diff frame.
In every path `lastFrameBuffer` becomes a copy of `frameBuffer`;
the second component is the updated `lastFrameBuffer`. -/
def compressFrame (last : Option (Nat → Nat)) (fb : Nat → Nat) (n : Nat) :
    FrameData × (Nat → Nat) :=
  match last with
  | none => (.full (sampleEveryOther fb n), fb)
  | some lb =>
      let changes := diffChanges lb fb n
      if ((changes.length : ℚ) > (n : ℚ) / 2) then
        (.full (sampleEveryOther fb n), fb)
      else
        (.diff changes, fb)

/-- One store into the receiver's `Uint32Array` of length `rasterLen`:
a JS typed-array write with an out-of-range index is silently
ignored. -/
def writeAt (buf : Nat → Nat) (idx v : Nat) : Nat → Nat :=
  if idx < rasterLen then Function.update buf idx v else buf

/-- One iteration of the full-frame reconstruction loop of
`decompressFrame`: `const idx = i * 2; buffer[idx] = frameData.data[i];
if (idx + 1 < buffer.length) buffer[idx + 1] = frameData.data[i];`. -/
def fullWriteStep (data : List Nat) (buf : Nat → Nat) (i : Nat) : Nat → Nat :=
  let idx := 2 * i
  let v := data.getD i 0
  writeAt (writeAt buf idx v) (idx + 1) v

/-- The full-frame branch of `decompressFrame`
(`src/unnamed/part_007` lines 141–153): start from a zeroed
`Uint32Array(256 * 240)` and run the write loop over the sampled
data. -/
def decompressFull (data : List Nat) : Nat → Nat :=
  (List.range data.length).foldl (fullWriteStep data) (fun _ => 0)

/-- The diff-frame application loop of `decompressFrame`:
`for (let i = 0; i < frameData.data.length; i += 2) {
   const idx = frameData.data[i]; const pixel = frameData.data[i + 1];
   buffer[idx] = pixel; }`.
On a stray odd-length tail JS reads `data[i+1]` as `undefined` and the
`Uint32Array` stores it as `0`. -/
def applyDiff : List Nat → (Nat → Nat) → Nat → Nat
  | [], buf => buf
  | [idx], buf => writeAt buf idx 0
  | idx :: px :: rest, buf => applyDiff rest (writeAt buf idx px)

/-- `decompressFrame(frameData)` (`src/unnamed/part_007` lines
140–168): full frames rebuild from scratch; diff frames copy the
retained `lastFrameBuffer` (zero-initialised when absent) and patch
it. -/
def decompressFrame (last : Option (Nat → Nat)) : FrameData → Nat → Nat
  | .full data => decompressFull data
  | .diff data => applyDiff data (last.getD (fun _ => 0))

/-- Specification-side count of the pixels of an `n`-pixel raster that
changed against the previous buffer (what claim C2 calls the
changed-pixel count). -/
def changedCount (last fb : Nat → Nat) (n : Nat) : Nat :=
  ((List.range n).filter (fun i => fb i ≠ last i)).length

/-! ### Audio codec (`ChatManager`, src/unnamed/part_009) -/

/-- JS `Math.round`: round half toward positive infinity,
`⌊x + 1/2⌋`. -/
def jsRound (x : ℚ) : ℤ := ⌊x + 1 / 2⌋

/-- `compressAudio(data)` (`src/unnamed/part_009` lines 176–184):
`for (let i = 0; i < data.length; i += 4)
   compressed.push(Math.round((data[i] + 1) * 127));`
— keep the first sample of each group of four and quantize it.
The float samples are embedded as rationals. -/
def compressAudio : List ℚ → List ℤ
  | [] => []
  | x :: rest => jsRound ((x + 1) * 127) :: compressAudio (rest.drop 3)
termination_by l => l.length
decreasing_by
  simp only [List.length_drop, List.length_cons]
  omega

/-- The decode loop of `onVoiceData` (`src/unnamed/part_009` lines
196–203): `const value = (data.audio[i] / 127) - 1;` written into the
four consecutive output slots `i*4 .. i*4+3` of a buffer of length
`audio.length * 4`. -/
def decompressAudio (audio : List ℤ) : List ℚ :=
  audio.flatMap (fun v =>
    let x := (v : ℚ) / 127 - 1
    [x, x, x, x])

/-- The `leave` handler of `src/aliyun-edge/signaling.js` (lines
357–393): the same room-record updates as `leave`, but the host-leave
notification pushed to each guest has `type: 'error'` (body
`房主已离开`), and no message queue is deleted. -/
def leaveEdge (s : Store) (code : String) (playerNum : Nat) : Store :=
  match s.rooms code with
  | none => s
  | some players =>
      if playerNum = 1 then
        let rooms1 := fun c => if c = code then none else s.rooms c
        let s1 : Store := { s with rooms := rooms1 }
        players.foldl (fun st p =>
          if p ≠ 1 then pushMessage st code p ⟨"error"⟩ else st) s1
      else
        let players1 := players.filter (fun p => p ≠ playerNum)
        let rooms1 := fun c => if c = code then some players1 else s.rooms c
        let s1 : Store := { s with rooms := rooms1 }
        pushMessage s1 code 1 ⟨"player-left"⟩

/-- A store holding one live room `GAME01` with host seat 1 and guests
2, 3, and no pending messages — the failing input of claim C1. -/
def c1Store : Store :=
  { rooms := fun c => if c = "GAME01" then some [1, 2, 3] else none,
    queues := fun _ _ => none }

/-- A store holding a full room `ROOMA` (seats 1–4) and a live room
`ROOMB` with seats {1, 3}. -/
def c7Store : Store :=
  { rooms := fun c =>
      if c = "ROOMA" then some [1, 2, 3, 4]
      else if c = "ROOMB" then some [1, 3]
      else none,
    queues := fun _ _ => none }

/-! ## Theorems -/

theorem pushBounded_of_length_lt {α : Type} (q : List α) (m : α)
    (h : q.length < 50) : pushBounded q m = q ++ [m] := by
  have hlen : ¬ (q ++ [m]).length > 50 := by
    simp only [List.length_append, List.length_cons, List.length_nil]
    omega
  simp only [pushBounded]
  rw [if_neg hlen]

theorem pushBounded_of_length_eq (α : Type) (q : List α) (m : α)
    (h : q.length = 50) : pushBounded q m = q.tail ++ [m] := by
  have hlen : (q ++ [m]).length > 50 := by
    simp only [List.length_append, List.length_cons, List.length_nil]
    omega
  match q, h with
  | a :: t, h =>
    simp only [pushBounded, if_pos hlen]
    simp

theorem pushBounded_length_le {α : Type} (q : List α) (m : α)
    (h : q.length ≤ 50) : (pushBounded q m).length ≤ 50 := by
  rcases Nat.lt_or_ge q.length 50 with hlt | hge
  · rw [pushBounded_of_length_lt q m hlt]
    simp only [List.length_append, List.length_cons, List.length_nil]
    omega
  · have heq : q.length = 50 := le_antisymm h hge
    rw [pushBounded_of_length_eq α q m heq]
    have := List.length_tail q
    simp only [List.length_append, List.length_cons, List.length_nil]
    omega

theorem foldl_pushBounded_length {α : Type} (sends : List α) :
    ∀ q : List α, q.length ≤ 50 →
      (sends.foldl pushBounded q).length ≤ 50 := by
  induction sends with
  | nil => intro q hq; simpa using hq
  | cons m rest ih =>
      intro q hq
      simpa using ih (pushBounded q m) (pushBounded_length_le q m hq)

theorem foldl_pushBounded_no_evict {α : Type} (sends : List α) :
    ∀ q : List α, q.length + sends.length ≤ 50 →
      sends.foldl pushBounded q = q ++ sends := by
  induction sends with
  | nil => intro q _; simp
  | cons m rest ih =>
      intro q hq
      simp only [List.length_cons] at hq
      have hlt : q.length < 50 := by omega
      have hstep : pushBounded q m = q ++ [m] :=
        pushBounded_of_length_lt q m hlt
      have htail : rest.foldl pushBounded (q ++ [m]) = (q ++ [m]) ++ rest := by
        apply ih
        simp only [List.length_append, List.length_cons, List.length_nil]
        omega
      simp [List.foldl_cons, hstep, htail]

/-- C6: for every sequence of sends to one mailbox key the stored queue
(`pushMessage`'s queue-update step, folded from the empty queue) never
holds more than 50 messages; enqueuing onto a queue of 50 evicts the
head; and after exactly 51 sends the 50 most-recently-sent messages
remain in their original relative order (the fold equals the send
sequence minus its first element). -/
theorem c6_mailbox_bound (α : Type) (sends : List α) (q : List α) (m : α) :
    (sends.foldl pushBounded ([] : List α)).length ≤ 50 ∧
    (q.length = 50 → pushBounded q m = q.tail ++ [m]) ∧
    (sends.length = 51 → sends.foldl pushBounded ([] : List α) = sends.tail) := by
  refine ⟨foldl_pushBounded_length sends [] (by simp),
    pushBounded_of_length_eq α q m, ?_⟩
  intro h51
  have hne : sends ≠ [] := by
    intro hnil
    rw [hnil] at h51
    simp at h51
  have hdecomp : sends.dropLast ++ [sends.getLast hne] = sends :=
    List.dropLast_append_getLast hne
  have hdl : sends.dropLast.length = 50 := by
    rw [List.length_dropLast, h51]
  have hfold : sends.dropLast.foldl pushBounded ([] : List α) = sends.dropLast := by
    have h0 : ([] : List α).length + sends.dropLast.length ≤ 50 := by
      simp only [List.length_nil]
      omega
    have hres := foldl_pushBounded_no_evict sends.dropLast [] h0
    simpa using hres
  calc sends.foldl pushBounded ([] : List α)
      = (sends.dropLast ++ [sends.getLast hne]).foldl pushBounded [] := by
        rw [hdecomp]
    _ = pushBounded sends.dropLast (sends.getLast hne) := by
        rw [List.foldl_append, hfold]
        simp
    _ = sends.dropLast.tail ++ [sends.getLast hne] :=
        pushBounded_of_length_eq α _ _ hdl
    _ = sends.tail := by
        conv_rhs => rw [← hdecomp]
        match hsd : sends.dropLast with
        | [] => rw [hsd] at hdl; simp at hdl
        | a :: t => simp

/-- C6 witness: 51 sends of `0, 1, …, 50` leave exactly the 50 most
recent in order, the bound holds, and a full queue evicts its head. -/
theorem c6_mailbox_bound_witness :
    ((List.range 51).foldl pushBounded ([] : List Nat)).length ≤ 50 ∧
    pushBounded (List.range 50) 50 = (List.range 50).tail ++ [50] ∧
    (List.range 51).foldl pushBounded ([] : List Nat) = (List.range 51).tail :=
  ⟨(c6_mailbox_bound Nat (List.range 51) (List.range 50) 50).1,
   (c6_mailbox_bound Nat (List.range 51) (List.range 50) 50).2.1 (by simp),
   (c6_mailbox_bound Nat (List.range 51) (List.range 50) 50).2.2 (by simp)⟩

/-- C7: `join` on a live room fails with `RoomFull` exactly when seats
2, 3 and 4 are all occupied, and otherwise assigns the lowest free seat
in {2,3,4} scanned in ascending order, recording it in the room's
players list. -/
theorem c7_join_seat (s : Store) (code : String) (players : List Nat)
    (h : s.rooms code = some players) :
    ((joinRoom s code).1 = .roomFull ↔
      (2 ∈ players ∧ 3 ∈ players ∧ 4 ∈ players)) ∧
    (2 ∉ players →
      (joinRoom s code).1 = .joined 2 (players ++ [2]) ∧
      (joinRoom s code).2.rooms code = some (players ++ [2])) ∧
    (2 ∈ players → 3 ∉ players →
      (joinRoom s code).1 = .joined 3 (players ++ [3]) ∧
      (joinRoom s code).2.rooms code = some (players ++ [3])) ∧
    (2 ∈ players → 3 ∈ players → 4 ∉ players →
      (joinRoom s code).1 = .joined 4 (players ++ [4]) ∧
      (joinRoom s code).2.rooms code = some (players ++ [4])) := by
  by_cases h2 : 2 ∈ players <;> by_cases h3 : 3 ∈ players <;>
    by_cases h4 : 4 ∈ players <;>
    simp [joinRoom, h, seatScan, h2, h3, h4, pushMessage]

/-- C7 witness: joining the full room `ROOMA` (seats {1,2,3,4}) fails
with `RoomFull`; joining `ROOMB` (seats {1,3}) assigns seat 2, the
lowest free seat, and records it. -/
theorem c7_join_seat_witness :
    (joinRoom c7Store "ROOMA").1 = .roomFull ∧
    (joinRoom c7Store "ROOMB").1 = .joined 2 ([1, 3] ++ [2]) ∧
    (joinRoom c7Store "ROOMB").2.rooms "ROOMB" = some ([1, 3] ++ [2]) :=
  ⟨(c7_join_seat c7Store "ROOMA" [1, 2, 3, 4] (by decide)).1.mpr (by decide),
   ((c7_join_seat c7Store "ROOMB" [1, 3] (by decide)).2.1 (by decide)).1,
   ((c7_join_seat c7Store "ROOMB" [1, 3] (by decide)).2.1 (by decide)).2⟩

/-- C1: evaluation of host leave at the failing input (room `GAME01`
with guests 2 and 3).  After the host (seat 1) leaves via the
`part_003` handler, the room record is gone and a subsequent `join`
fails with `RoomNotFound` — those parts of the claim hold — but every
guest's next `poll` returns the empty list, because the handler deletes
each guest's message queue immediately after pushing the `room-closed`
message into it.  In the `signaling.js` variant (`leaveEdge`) the
guest's next poll does return a message, but its type is `error`, not
`room-closed`. -/
theorem c1_host_leave_eval :
    (leave c1Store "GAME01" 1).rooms "GAME01" = none ∧
    (joinRoom (leave c1Store "GAME01" 1) "GAME01").1 = .roomNotFound ∧
    (popMessages (leave c1Store "GAME01" 1) "GAME01" 2).1 = [] ∧
    (popMessages (leave c1Store "GAME01" 1) "GAME01" 3).1 = [] ∧
    (popMessages (leaveEdge c1Store "GAME01" 1) "GAME01" 2).1 = [⟨"error"⟩] ∧
    (popMessages (leaveEdge c1Store "GAME01" 1) "GAME01" 3).1 = [⟨"error"⟩] := by
  decide

/-- C3 counterexample: a measured round-trip latency of exactly 0 ms
for seat 2 is reported as `none`, identical to seat 3 for which no
latency was ever measured — `getLatency` does not surface a measured 0
differently from the absent case. -/
theorem c3_zero_latency_counterexample :
    getLatency (fun p => if p = 2 then some 0 else none) 2 = none ∧
    getLatency (fun p => if p = 2 then some 0 else none) 3 = none := by
  decide

/-- C3 amended: `getLatency` returns `none` when no latency has been
measured for the seat and also when the measured latency is exactly 0
(the JS `latencies[playerNum] || null` collapses the falsy 0 to null);
a nonzero measured latency is returned as measured. -/
theorem c3_getLatency_amended (latencies : Nat → Option Nat) (p : Nat) :
    (latencies p = none → getLatency latencies p = none) ∧
    (latencies p = some 0 → getLatency latencies p = none) ∧
    (∀ v, latencies p = some v → v ≠ 0 → getLatency latencies p = some v) := by
  refine ⟨fun h => ?_, fun h => ?_, fun v h hv => ?_⟩ <;>
    simp [getLatency, h]
  exact hv

/-- C3 witness: a measured latency of 7 ms for seat 2 is reported as
`some 7`. -/
theorem c3_getLatency_amended_witness :
    getLatency (fun p => if p = 2 then some 7 else none) 2 = some 7 :=
  (c3_getLatency_amended (fun p => if p = 2 then some 7 else none) 2).2.2 7
    (by decide) (by decide)

/-- C4: evaluation at the failing input.  An `answer` delivered for a
pairing in state IDLE is ignored by `part_005`'s guarded `handleAnswer`
in both IDLE shapes — no connection for the sender, and a connection
that has not sent an offer (signaling state `stable`): `.ok` with the
map unchanged, no exception.  But `room.js`'s `handleAnswer`
(`handleAnswerJs`), which the claim also cites, calls
`setRemoteDescription` unconditionally whenever a connection exists, so
the same IDLE-with-connection input raises `InvalidStateError` instead
of being ignored; only the no-connection IDLE case is ignored there. -/
theorem c4_answer_idle_eval :
    handleAnswer (fun _ => none) 2 = .ok (fun _ => none) ∧
    handleAnswer (fun p => if p = 2 then some .stable else none) 2 =
      .ok (fun p => if p = 2 then some .stable else none) ∧
    handleAnswerJs (fun _ => none) 2 = .ok (fun _ => none) ∧
    handleAnswerJs (fun p => if p = 2 then some .stable else none) 2 =
      .error .invalidStateError :=
  ⟨rfl, rfl, rfl, rfl⟩

/-- C8: with a room held, the delays scheduled over 6 consecutive
transport failures are exactly 1000, 2000, 4000, 8000, 10000 ms and
then nothing (no attempt is scheduled after the 5th failure); the k-th
delay (k = 1..5) is `min(1000·2^(k-1), 10000)`; and a successful
reconnect resets the attempt counter to zero. -/
theorem c8_reconnect_backoff (code : String) (s : WsConn) (k : Nat) :
    runDisconnects ⟨some code, 0⟩ 6 =
      [some 1000, some 2000, some 4000, some 8000, some 10000, none] ∧
    (1 ≤ k → k ≤ 5 →
      (handleWsDisconnect ⟨some code, k - 1⟩).2 =
        some (min (1000 * 2 ^ (k - 1)) 10000)) ∧
    (wsOnOpen s).wsReconnectAttempts = 0 := by
  refine ⟨?_, fun h1 h5 => ?_, rfl⟩
  · simp [runDisconnects, handleWsDisconnect, maxReconnectAttempts]
  · interval_cases k <;>
      simp [handleWsDisconnect, maxReconnectAttempts]

/-- C8 witness: the 5th reconnection attempt (counter at 4) is
scheduled after `min(1000·2^4, 10000) = 10000` ms. -/
theorem c8_reconnect_backoff_witness :
    (handleWsDisconnect ⟨some "X", 5 - 1⟩).2 =
      some (min (1000 * 2 ^ (5 - 1)) 10000) :=
  (c8_reconnect_backoff "X" ⟨none, 0⟩ 5).2.1 (by decide) (by decide)

/-- C10: a message arriving on the host over seat `seat`'s data channel
is tagged with that seat as `fromPlayer`; if its type is not `frame`,
`ping` or `pong` the host forwards it exactly to the seats whose data
channel is currently open, excluding the sender's own seat; messages of
type `frame`, `ping` or `pong` are never forwarded. -/
theorem c10_host_forward (dataChannels : List (Nat × Bool)) (seat : Nat)
    (m : GameMsg) :
    ((tagFromPlayer seat m).fromPlayer = seat) ∧
    (¬ m.type ∈ ["frame", "ping", "pong"] →
      ∀ q, q ∈ hostForwardTargets true dataChannels (tagFromPlayer seat m) ↔
        ((q, true) ∈ dataChannels ∧ q ≠ seat)) ∧
    (m.type ∈ ["frame", "ping", "pong"] →
      hostForwardTargets true dataChannels (tagFromPlayer seat m) = []) := by
  refine ⟨rfl, fun hty q => ?_, fun hty => ?_⟩
  · have hunfold : hostForwardTargets true dataChannels (tagFromPlayer seat m) =
        broadcastTargets dataChannels seat := by
      simp [hostForwardTargets, tagFromPlayer, hty]
    rw [hunfold]
    simp only [broadcastTargets, List.mem_map, List.mem_filter,
      decide_eq_true_eq]
    constructor
    · rintro ⟨⟨a, b⟩, ⟨hmem, hne, hopen⟩, hq⟩
      subst hq
      cases b with
      | false => simp at hopen
      | true => exact ⟨hmem, hne⟩
    · rintro ⟨hmem, hne⟩
      refine ⟨(q, true), ⟨hmem, hne, rfl⟩, rfl⟩
  · simp [hostForwardTargets, tagFromPlayer, hty]

/-- C10 witness: with channels 2 (open), 3 (closed), 4 (open), an
`input` message arriving from seat 2 is forwarded to seat 4 but not to
the sender 2 nor the closed channel 3, and a `frame` message is not
forwarded at all. -/
theorem c10_host_forward_witness :
    (4 ∈ hostForwardTargets true [(2, true), (3, false), (4, true)]
      (tagFromPlayer 2 ⟨"input", 9⟩)) ∧
    ¬ (2 ∈ hostForwardTargets true [(2, true), (3, false), (4, true)]
      (tagFromPlayer 2 ⟨"input", 9⟩)) ∧
    ¬ (3 ∈ hostForwardTargets true [(2, true), (3, false), (4, true)]
      (tagFromPlayer 2 ⟨"input", 9⟩)) ∧
    hostForwardTargets true [(2, true), (3, false), (4, true)]
      (tagFromPlayer 2 ⟨"frame", 9⟩) = [] :=
  ⟨((c10_host_forward [(2, true), (3, false), (4, true)] 2
      ⟨"input", 9⟩).2.1 (by decide) 4).mpr (by decide),
   fun hmem => absurd (((c10_host_forward [(2, true), (3, false), (4, true)] 2
      ⟨"input", 9⟩).2.1 (by decide) 2).mp hmem) (by decide),
   fun hmem => absurd (((c10_host_forward [(2, true), (3, false), (4, true)] 2
      ⟨"input", 9⟩).2.1 (by decide) 3).mp hmem) (by decide),
   (c10_host_forward [(2, true), (3, false), (4, true)] 2
      ⟨"frame", 9⟩).2.2 (by decide)⟩

theorem compressAudio_closed_form :
    ∀ (n : Nat) (data : List ℚ), data.length ≤ n →
      compressAudio data =
        (List.range ((data.length + 3) / 4)).map
          (fun j => jsRound ((data.getD (4 * j) 0 + 1) * 127)) := by
  intro n
  induction n with
  | zero =>
      intro data hlen
      match data, hlen with
      | [], _ => simp [compressAudio]
  | succ n ih =>
      intro data hlen
      match data with
      | [] => simp [compressAudio]
      | x :: rest =>
          have hdroplen : (rest.drop 3).length ≤ n := by
            simp only [List.length_drop]
            simp only [List.length_cons] at hlen
            omega
          have hrec := ih (rest.drop 3) hdroplen
          have hquot : (rest.length + 1 + 3) / 4 = rest.length / 4 + 1 := by
            omega
          have hquot2 : ((rest.drop 3).length + 3) / 4 = rest.length / 4 := by
            simp only [List.length_drop]
            omega
          rw [compressAudio, hrec, hquot2]
          simp only [List.length_cons, hquot, List.range_succ_eq_map,
            List.map_cons, List.map_map]
          refine congrArg₂ List.cons (by norm_num) ?_
          apply List.map_congr_left
          intro j _
          simp only [Function.comp_apply, Nat.succ_eq_add_one]
          congr 2
          have hidx : 4 * (j + 1) = 3 + (4 * j) + 1 := by omega
          rw [hidx, List.getD_cons_succ]
          simp only [List.getD_eq_getElem?_getD, List.getElem?_drop]

theorem decompressAudio_closed_form (audio : List ℤ) :
    decompressAudio audio =
      (List.range (4 * audio.length)).map
        (fun i => ((audio.getD (i / 4) 0 : ℤ) : ℚ) / 127 - 1) := by
  induction audio with
  | nil => simp [decompressAudio]
  | cons v rest ih =>
      have hlen : 4 * (v :: rest).length = 4 + 4 * rest.length := by
        simp only [List.length_cons]
        omega
      rw [decompressAudio] at ih ⊢
      rw [List.flatMap_cons, hlen, List.range_add, List.map_append,
        List.map_map]
      refine congrArg₂ List.append ?_ ?_
      · have hrange4 : List.range 4 = [0, 1, 2, 3] := by decide
        rw [hrange4]
        norm_num
      rw [ih]
      apply List.map_congr_left
      intro i _
      simp only [Function.comp_apply]
      have hidx : (4 + i) / 4 = i / 4 + 1 := by omega
      rw [hidx, List.getD_cons_succ]

/-- C9: the audio codec keeps the first sample of each group of four
(the compressed stream has one entry per group, entry `j` holding
`round((data[4*j] + 1) * 127)` with JS `Math.round` semantics), and the
receiver dequantizes each received value `v` to `v/127 - 1` and
replicates it across the four consecutive output positions it
represents (output position `i` holds the dequantized `audio[i/4]`). -/
theorem c9_audio_codec (data : List ℚ) (audio : List ℤ) :
    compressAudio data =
      (List.range ((data.length + 3) / 4)).map
        (fun j => jsRound ((data.getD (4 * j) 0 + 1) * 127)) ∧
    decompressAudio audio =
      (List.range (4 * audio.length)).map
        (fun i => ((audio.getD (i / 4) 0 : ℤ) : ℚ) / 127 - 1) :=
  ⟨compressAudio_closed_form data.length data le_rfl,
   decompressAudio_closed_form audio⟩

theorem foldl_changes_append (last fb : Nat → Nat) (l : List Nat) :
    ∀ acc : List Nat,
      l.foldl (fun acc i => if fb i ≠ last i then acc ++ [i, fb i] else acc)
          acc =
        acc ++ (l.filter (fun i => fb i ≠ last i)).flatMap
          (fun i => [i, fb i]) := by
  induction l with
  | nil => intro acc; simp
  | cons i rest ih =>
      intro acc
      by_cases hch : fb i ≠ last i
      · simp only [List.foldl_cons, if_pos hch, List.filter_cons,
          decide_eq_true hch, ih, List.flatMap_cons]
        simp
      · simp only [List.foldl_cons, if_neg hch, List.filter_cons, ih]
        simp [hch]

theorem diffChanges_eq (last fb : Nat → Nat) (n : Nat) :
    diffChanges last fb n =
      ((List.range n).filter (fun i => fb i ≠ last i)).flatMap
        (fun i => [i, fb i]) := by
  have h := foldl_changes_append last fb (List.range n) []
  simpa [diffChanges] using h

theorem flatMap_pairs_length (fb : Nat → Nat) (l : List Nat) :
    (l.flatMap (fun i => [i, fb i])).length = 2 * l.length := by
  induction l with
  | nil => simp
  | cons i rest ih =>
      simp only [List.flatMap_cons, List.length_append, ih,
        List.length_cons, List.length_nil]
      omega

theorem diffChanges_length (last fb : Nat → Nat) (n : Nat) :
    (diffChanges last fb n).length = 2 * changedCount last fb n := by
  rw [diffChanges_eq, flatMap_pairs_length, changedCount]

theorem filter_range_lt (k n : Nat) (h : k ≤ n) :
    (List.range n).filter (fun i => decide (i < k)) = List.range k := by
  induction n with
  | zero =>
      have hk : k = 0 := Nat.le_zero.mp h
      simp [hk]
  | succ n ih =>
      rw [List.range_succ, List.filter_append]
      rcases Nat.lt_or_ge k (n + 1) with hk | hk
      · have hkn : k ≤ n := by omega
        have hlast : ¬ n < k := by omega
        rw [ih hkn]
        simp [hlast]
      · have hkeq : k = n + 1 := by omega
        subst hkeq
        have hall : (List.range n).filter (fun i => decide (i < n + 1)) =
            List.range n := by
          apply List.filter_eq_self.mpr
          intro a ha
          have := List.mem_range.mp ha
          simp
          omega
        rw [hall]
        simp [List.range_succ]

/-- The previous frame buffer of the C2 counterexample: all zeros. -/
def c2Prev : Nat → Nat := fun _ => 0

/-- The new frame buffer of the C2 counterexample: pixels 0..15360 are
1, the rest 0 — exactly 15361 changed pixels, one more than a quarter
of the 61440-pixel raster and far below half of it. -/
def c2Next : Nat → Nat := fun i => if i < 15361 then 1 else 0

/-- C2 counterexample: a frame with 15361 changed pixels — not more
than half the raster (15361 ≤ 30720) — is emitted as a full frame, not
the diff frame the claim requires, because `compressFrame` compares the
flat pair list (twice the changed-pixel count, here 30722) against
half the raster. -/
theorem c2_threshold_counterexample :
    changedCount c2Prev c2Next 61440 = 15361 ∧
    15361 ≤ 30720 ∧
    (compressFrame (some c2Prev) c2Next 61440).1 =
      .full (sampleEveryOther c2Next 61440) := by
  have hcong : ∀ a ∈ List.range 61440,
      (decide (c2Next a ≠ c2Prev a)) = decide (a < 15361) := by
    intro a _
    by_cases hlt : a < 15361 <;> simp [c2Next, c2Prev, hlt]
  have hfilter : (List.range 61440).filter (fun i => c2Next i ≠ c2Prev i) =
      List.range 15361 := by
    rw [List.filter_congr hcong, filter_range_lt 15361 61440 (by norm_num)]
  have hcount : changedCount c2Prev c2Next 61440 = 15361 := by
    rw [changedCount, hfilter, List.length_range]
  refine ⟨hcount, by norm_num, ?_⟩
  have hcond : ((diffChanges c2Prev c2Next 61440).length : ℚ) >
      ((61440 : Nat) : ℚ) / 2 := by
    rw [diffChanges_length, hcount]
    norm_num
  simp only [compressFrame]
  rw [if_pos hcond]

/-- C2 amended: `compressFrame` emits a full frame for the first frame
and for exactly those subsequent frames whose changed-pixel count
exceeds a **quarter** of the raster (the code compares the flat
(index, value) pair list — twice the changed-pixel count — against half
the buffer length); otherwise it emits a diff frame holding an
(index, value) pair for every changed pixel. -/
theorem c2_compress_policy (lb fb : Nat → Nat) (n : Nat) :
    (compressFrame none fb n).1 = .full (sampleEveryOther fb n) ∧
    (4 * changedCount lb fb n > n →
      (compressFrame (some lb) fb n).1 = .full (sampleEveryOther fb n)) ∧
    (4 * changedCount lb fb n ≤ n →
      (compressFrame (some lb) fb n).1 = .diff (diffChanges lb fb n)) ∧
    diffChanges lb fb n =
      ((List.range n).filter (fun i => fb i ≠ lb i)).flatMap
        (fun i => [i, fb i]) := by
  refine ⟨rfl, fun h => ?_, fun h => ?_, diffChanges_eq lb fb n⟩
  · have hcond : ((diffChanges lb fb n).length : ℚ) > (n : ℚ) / 2 := by
      rw [diffChanges_length, gt_iff_lt,
        div_lt_iff₀ (by norm_num : (0 : ℚ) < 2)]
      have hq : (n : ℚ) < 4 * (changedCount lb fb n : ℚ) := by
        exact_mod_cast h
      push_cast
      linarith
    simp only [compressFrame]
    rw [if_pos hcond]
  · have hcond : ¬ ((diffChanges lb fb n).length : ℚ) > (n : ℚ) / 2 := by
      rw [diffChanges_length, gt_iff_lt, not_lt,
        le_div_iff₀ (by norm_num : (0 : ℚ) < 2)]
      have hq : 4 * (changedCount lb fb n : ℚ) ≤ (n : ℚ) := by
        exact_mod_cast h
      push_cast
      linarith
    simp only [compressFrame]
    rw [if_neg hcond]

/-- C2 witness: against an all-zero previous buffer, a 4-pixel frame
with all pixels changed is emitted full, and one with no pixel changed
is emitted as a (here empty) diff frame. -/
theorem c2_compress_policy_witness :
    (compressFrame (some fun _ => 0) (fun _ => 1) 4).1 =
      .full (sampleEveryOther (fun _ => 1) 4) ∧
    (compressFrame (some fun _ => 0) (fun _ => 0) 4).1 =
      .diff (diffChanges (fun _ => 0) (fun _ => 0) 4) :=
  ⟨(c2_compress_policy (fun _ => 0) (fun _ => 1) 4).2.1 (by decide),
   (c2_compress_policy (fun _ => 0) (fun _ => 0) 4).2.2.1 (by decide)⟩

theorem writeAt_noteq (buf : Nat → Nat) (idx v p : Nat) (h : p ≠ idx) :
    writeAt buf idx v p = buf p := by
  unfold writeAt
  by_cases hb : idx < rasterLen
  · rw [if_pos hb, Function.update_noteq h]
  · rw [if_neg hb]

theorem writeAt_self (buf : Nat → Nat) (idx v : Nat) (h : idx < rasterLen) :
    writeAt buf idx v idx = v := by
  unfold writeAt
  rw [if_pos h, Function.update_same]

theorem foldl_fullWriteStep (data : List Nat) :
    ∀ (m : Nat), 2 * m ≤ rasterLen →
      ∀ (buf : Nat → Nat) (idx : Nat),
        ((List.range m).foldl (fullWriteStep data) buf) idx =
          if idx < 2 * m then data.getD (idx / 2) 0 else buf idx := by
  intro m
  induction m with
  | zero =>
      intro _ buf idx
      simp
  | succ m ih =>
      intro hm buf idx
      have hm2 : 2 * m ≤ rasterLen := by omega
      have h1 : 2 * m < rasterLen := by omega
      have h2 : 2 * m + 1 < rasterLen := by omega
      rw [List.range_succ, List.foldl_append, List.foldl_cons, List.foldl_nil]
      simp only [fullWriteStep]
      by_cases hidx1 : idx = 2 * m + 1
      · subst hidx1
        rw [writeAt_self _ _ _ h2, if_pos (by omega)]
        congr 1
        omega
      · rw [writeAt_noteq _ _ _ _ hidx1]
        by_cases hidx2 : idx = 2 * m
        · subst hidx2
          rw [writeAt_self _ _ _ h1, if_pos (by omega)]
          congr 1
          omega
        · rw [writeAt_noteq _ _ _ _ hidx2, ih hm2 buf idx]
          by_cases hlt : idx < 2 * m
          · rw [if_pos hlt, if_pos (by omega)]
          · rw [if_neg hlt, if_neg (by omega)]

theorem decompressFull_sample (orig : Nat → Nat) (idx : Nat)
    (h : idx < rasterLen) :
    decompressFull (sampleEveryOther orig rasterLen) idx =
      if idx % 2 = 0 then orig idx else orig (idx - 1) := by
  have hras : rasterLen = 61440 := by norm_num [rasterLen]
  have hlen : (sampleEveryOther orig rasterLen).length = 30720 := by
    simp [sampleEveryOther, hras]
  have hbound : 2 * (sampleEveryOther orig rasterLen).length ≤ rasterLen := by
    rw [hlen, hras]
  have hidx : idx < 61440 := by rw [hras] at h; exact h
  rw [decompressFull,
    foldl_fullWriteStep (sampleEveryOther orig rasterLen)
      (sampleEveryOther orig rasterLen).length hbound (fun _ => 0) idx,
    if_pos (by rw [hlen]; omega)]
  have hq : idx / 2 < 30720 := by omega
  have hgetD : (sampleEveryOther orig rasterLen).getD (idx / 2) 0 =
      orig (2 * (idx / 2)) := by
    simp only [sampleEveryOther, hras, List.getD_eq_getElem?_getD,
      List.getElem?_map]
    norm_num
    rw [List.getElem?_range hq]
    simp
  rw [hgetD]
  split_ifs with hpar
  · have harg : 2 * (idx / 2) = idx := by omega
    rw [harg]
  · have harg : 2 * (idx / 2) = idx - 1 := by omega
    rw [harg]

theorem applyDiff_not_mem (fb : Nat → Nat) :
    ∀ (l : List Nat) (buf : Nat → Nat) (p : Nat), p ∉ l →
      applyDiff (l.flatMap (fun i => [i, fb i])) buf p = buf p := by
  intro l
  induction l with
  | nil =>
      intro buf p _
      simp [applyDiff]
  | cons i rest ih =>
      intro buf p hp
      have hpairs : ((i :: rest).flatMap (fun i => [i, fb i])) =
          i :: fb i :: rest.flatMap (fun i => [i, fb i]) := by
        simp
      rw [hpairs, applyDiff]
      have hpi : p ≠ i := by
        intro hcontra
        exact hp (hcontra ▸ List.mem_cons_self i rest)
      have hprest : p ∉ rest := fun hmem => hp (List.mem_cons_of_mem i hmem)
      rw [ih (writeAt buf i (fb i)) p hprest, writeAt_noteq _ _ _ _ hpi]

theorem applyDiff_mem (fb : Nat → Nat) :
    ∀ (l : List Nat) (buf : Nat → Nat) (p : Nat), p ∈ l → l.Nodup →
      p < rasterLen →
      applyDiff (l.flatMap (fun i => [i, fb i])) buf p = fb p := by
  intro l
  induction l with
  | nil =>
      intro buf p hp _ _
      simp at hp
  | cons i rest ih =>
      intro buf p hp hnd hlt
      rcases List.nodup_cons.mp hnd with ⟨hnotin, hndr⟩
      have hpairs : ((i :: rest).flatMap (fun i => [i, fb i])) =
          i :: fb i :: rest.flatMap (fun i => [i, fb i]) := by
        simp
      rw [hpairs, applyDiff]
      by_cases hpi : p = i
      · subst hpi
        rw [applyDiff_not_mem fb rest _ p hnotin, writeAt_self _ _ _ hlt]
      · have hprest : p ∈ rest := by
          rcases List.mem_cons.mp hp with hcase | hcase
          · exact absurd hcase hpi
          · exact hcase
        exact ih (writeAt buf i (fb i)) p hprest hndr hlt

/-- C5: frame codec round-trip.  Decoding the encoded full frame of any
256×240 raster yields the original value at every even index and the
preceding sampled (even-index) value at every odd index; and decoding a
diff frame on a receiver whose retained `lastFrameBuffer` equals the
encoder's prior buffer reproduces the new raster exactly at every
changed index. -/
theorem c5_frame_roundtrip (orig lb fb : Nat → Nat) :
    (∀ idx, idx < rasterLen →
      decompressFrame none (.full (sampleEveryOther orig rasterLen)) idx =
        if idx % 2 = 0 then orig idx else orig (idx - 1)) ∧
    (∀ i, i < rasterLen → fb i ≠ lb i →
      decompressFrame (some lb) (.diff (diffChanges lb fb rasterLen)) i =
        fb i) := by
  constructor
  · intro idx h
    exact decompressFull_sample orig idx h
  · intro i hi hne
    show applyDiff (diffChanges lb fb rasterLen) lb i = fb i
    rw [diffChanges_eq]
    apply applyDiff_mem
    · rw [List.mem_filter]
      exact ⟨List.mem_range.mpr hi, by simp [hne]⟩
    · exact (List.nodup_range rasterLen).filter _
    · exact hi

/-- C5 witness: with the raster `i % 7`, the decoded full frame holds
the original value at even index 10 and the value of index 10 at odd
index 11; and a diff frame against the all-5 buffer restores the
changed pixel 3 to its new value 4. -/
theorem c5_frame_roundtrip_witness :
    decompressFrame none
      (.full (sampleEveryOther (fun i => i % 7) rasterLen)) 10 = 10 % 7 ∧
    decompressFrame none
      (.full (sampleEveryOther (fun i => i % 7) rasterLen)) 11 = 10 % 7 ∧
    decompressFrame (some fun _ => 5)
      (.diff (diffChanges (fun _ => 5) (fun i => i + 1) rasterLen)) 3 =
        3 + 1 := by
  refine ⟨?_, ?_, ?_⟩
  · have h := (c5_frame_roundtrip (fun i => i % 7) (fun _ => 5)
      (fun i => i + 1)).1 10 (by norm_num [rasterLen])
    simpa using h
  · have h := (c5_frame_roundtrip (fun i => i % 7) (fun _ => 5)
      (fun i => i + 1)).1 11 (by norm_num [rasterLen])
    simpa using h
  · exact (c5_frame_roundtrip (fun i => i % 7) (fun _ => 5)
      (fun i => i + 1)).2 3 (by norm_num [rasterLen]) (by norm_num)

end Hongbai
